import Mathlib

/-!
Verification development for the servicenow-mcp dispatch core.

This file gives a shallow embedding of the repository's dispatch core
(`src/servicenow_mcp/server.py`) and of the case tools
(`src/servicenow_mcp/tools/case_tools.py`), and proves properties of the
embedding.

Modelling conventions:
* Python dictionaries are association lists in insertion order (Python
  dicts preserve insertion order, and lookups on well-formed configs hit
  unique keys).
* The standard-library `json` module (outside this repository) is embedded
  as a `Json` value type together with `dumps` (mirroring
  `json.dumps(v, indent=2)`) and `loads` (a recursive-descent parser of
  the same grammar, mirroring `json.loads`).  JSON numbers are modelled as
  integers and string escapes by the common escape subset; neither
  restriction affects the structural properties proved here.
* Raising Python code is modelled with `Except`/`Option`: a total Lean
  function returning a plain value embeds code that cannot raise.
* Network calls made by the case tools are abstracted by their outcome: an
  argument of type `Except String Json` is the parsed
  `response.json()` body on success, or `str(e)` of the raised
  `requests.RequestException` (which `raise_for_status` failures are part
  of) on failure.
-/

/-- JSON values, the value space of the Python `json` module as used by
`serialize_tool_output`. -/
inductive Json where
  | null
  | bool (b : Bool)
  | num (n : Int)
  | str (value : String)
  | arr (items : List Json)
  | obj (fields : List (String × Json))
  deriving Repr

/-- Whitespace characters skipped by the JSON grammar. -/
def isWsChar (c : Char) : Bool :=
  c = ' ' || c = '\n' || c = '\t' || c = '\r'

/-- ASCII decimal digit test. -/
def isDigitChar (c : Char) : Bool :=
  48 ≤ c.toNat && c.toNat ≤ 57

/-- The decimal digit character for a value below ten. -/
def digitChar : Nat → Char
  | 0 => '0' | 1 => '1' | 2 => '2' | 3 => '3' | 4 => '4'
  | 5 => '5' | 6 => '6' | 7 => '7' | 8 => '8' | _ => '9'

/-- JSON string escaping of one character (the common escape subset). -/
def escChar (c : Char) : List Char :=
  if c = '"' then ['\\', '"']
  else if c = '\\' then ['\\', '\\']
  else if c = '\n' then ['\\', 'n']
  else if c = '\t' then ['\\', 't']
  else if c = '\r' then ['\\', 'r']
  else [c]

/-- JSON string escaping of a character sequence. -/
def escChars : List Char → List Char
  | [] => []
  | c :: cs => escChar c ++ escChars cs

/-- Decimal digits of a natural number, most significant first, with fuel. -/
def natDigitsF : Nat → Nat → List Char
  | 0, _ => []
  | f + 1, n => if n < 10 then [digitChar n] else natDigitsF f (n / 10) ++ [digitChar (n % 10)]

/-- Decimal digits of a natural number, most significant first. -/
def natChars (n : Nat) : List Char := natDigitsF (n + 1) n

/-- Decimal rendering of an integer, as Python renders `int`. -/
def intChars (n : Int) : List Char :=
  if n < 0 then '-' :: natChars n.natAbs else natChars n.toNat

/-- A run of `n` spaces. -/
def indentChars (n : Nat) : List Char := List.replicate n ' '

mutual

/-- Characters of `json.dumps(v, indent=2)` at a given nesting level. -/
def printChars (level : Nat) : Json → List Char
  | .null => "null".data
  | .bool true => "true".data
  | .bool false => "false".data
  | .num n => intChars n
  | .str s => '"' :: (escChars s.data ++ ['"'])
  | .arr [] => ['[', ']']
  | .arr (x :: xs) =>
      '[' :: (printElems level (x :: xs) ++ '\n' :: (indentChars (2 * level) ++ [']']))
  | .obj [] => ['{', '}']
  | .obj (m :: ms) =>
      '{' :: (printMembers level (m :: ms) ++ '\n' :: (indentChars (2 * level) ++ ['}']))

/-- Array items of `json.dumps(v, indent=2)`: newline, indentation, item,
separated by commas. -/
def printElems (level : Nat) : List Json → List Char
  | [] => []
  | [x] => '\n' :: (indentChars (2 * level + 2) ++ printChars (level + 1) x)
  | x :: y :: ys =>
      '\n' :: (indentChars (2 * level + 2) ++ printChars (level + 1) x)
        ++ ',' :: printElems level (y :: ys)

/-- Object members of `json.dumps(v, indent=2)`: newline, indentation,
quoted key, colon, value, separated by commas. -/
def printMembers (level : Nat) : List (String × Json) → List Char
  | [] => []
  | [(k, v)] =>
      '\n' :: (indentChars (2 * level + 2)
        ++ '"' :: (escChars k.data ++ '"' :: ':' :: ' ' :: printChars (level + 1) v))
  | (k, v) :: m :: ms =>
      '\n' :: (indentChars (2 * level + 2)
        ++ '"' :: (escChars k.data ++ '"' :: ':' :: ' ' :: printChars (level + 1) v))
        ++ ',' :: printMembers level (m :: ms)

end

/-- Model of `json.dumps(v, indent=2)`. -/
def dumps (j : Json) : String := String.mk (printChars 0 j)

/-- Drop leading JSON whitespace. -/
def skipWs (cs : List Char) : List Char := cs.dropWhile isWsChar

/-- Resolution of one escape character after a backslash. -/
def unescChar (c : Char) : Option Char :=
  if c = '"' then some '"'
  else if c = '\\' then some '\\'
  else if c = '/' then some '/'
  else if c = 'n' then some '\n'
  else if c = 't' then some '\t'
  else if c = 'r' then some '\r'
  else none

/-- Worker for JSON string-body parsing; the flag records whether the
previous character was an unconsumed backslash. -/
def parseStrAux : Bool → List Char → Option (List Char × List Char)
  | _, [] => none
  | true, c :: cs =>
    match unescChar c with
    | some c' => (parseStrAux false cs).map (fun p => (c' :: p.1, p.2))
    | none => none
  | false, c :: cs =>
    if c = '"' then some ([], cs)
    else if c = '\\' then parseStrAux true cs
    else (parseStrAux false cs).map (fun p => (c :: p.1, p.2))

/-- Parse the body of a JSON string after the opening quote, up to and
including the closing quote. -/
def parseStringBody (cs : List Char) : Option (List Char × List Char) :=
  parseStrAux false cs

/-- Value of an ASCII digit character. -/
def charToDigit (c : Char) : Nat := c.toNat - 48

/-- Value of a most-significant-first digit sequence. -/
def digitsToNat (ds : List Char) : Nat :=
  ds.foldl (fun a c => a * 10 + charToDigit c) 0

/-- Parse a maximal nonempty digit run. -/
def parseNatNum (cs : List Char) : Option (Nat × List Char) :=
  let ds := cs.takeWhile isDigitChar
  if ds.isEmpty then none else some (digitsToNat ds, cs.dropWhile isDigitChar)

/-- Parse a JSON integer (optional minus sign, then digits). -/
def parseNum : List Char → Option (Json × List Char)
  | [] => none
  | c :: cs =>
    if c = '-' then (parseNatNum cs).map (fun p => (Json.num (-(p.1 : Int)), p.2))
    else (parseNatNum (c :: cs)).map (fun p => (Json.num (p.1 : Int), p.2))

/-- Parse the items of a nonempty JSON array, given a parser for values;
consumes the closing bracket. -/
def parseArrElems (pv : List Char → Option (Json × List Char)) :
    Nat → List Char → Option (List Json × List Char)
  | 0, _ => none
  | fuel + 1, cs =>
    match pv cs with
    | none => none
    | some (j, r) =>
      match skipWs r with
      | ',' :: r2 =>
        match parseArrElems pv fuel r2 with
        | none => none
        | some (js, rr) => some (j :: js, rr)
      | ']' :: r2 => some ([j], r2)
      | _ => none

/-- Parse the members of a nonempty JSON object, given a parser for values;
consumes the closing brace. -/
def parseObjMembers (pv : List Char → Option (Json × List Char)) :
    Nat → List Char → Option (List (String × Json) × List Char)
  | 0, _ => none
  | fuel + 1, cs =>
    match skipWs cs with
    | '"' :: cs2 =>
      match parseStringBody cs2 with
      | none => none
      | some (kcs, r) =>
        match skipWs r with
        | ':' :: r2 =>
          match pv r2 with
          | none => none
          | some (v, r3) =>
            match skipWs r3 with
            | ',' :: r4 =>
              match parseObjMembers pv fuel r4 with
              | none => none
              | some (ms, rr) => some ((String.mk kcs, v) :: ms, rr)
            | '}' :: r4 => some ([(String.mk kcs, v)], r4)
            | _ => none
        | _ => none
    | _ => none

/-- Parse one JSON value (with fuel), skipping leading whitespace. -/
def parseVal : Nat → List Char → Option (Json × List Char)
  | 0, _ => none
  | fuel + 1, cs0 =>
    match skipWs cs0 with
    | [] => none
    | c :: rest =>
      if c = '"' then
        (parseStringBody rest).map (fun p => (Json.str (String.mk p.1), p.2))
      else if c = '[' then
        let cs2 := skipWs rest
        if cs2.head? = some ']' then some (Json.arr [], cs2.tail)
        else (parseArrElems (parseVal fuel) fuel cs2).map (fun p => (Json.arr p.1, p.2))
      else if c = '{' then
        let cs2 := skipWs rest
        if cs2.head? = some '}' then some (Json.obj [], cs2.tail)
        else (parseObjMembers (parseVal fuel) fuel cs2).map (fun p => (Json.obj p.1, p.2))
      else if c = 'n' then
        match rest with
        | 'u' :: 'l' :: 'l' :: r => some (Json.null, r)
        | _ => none
      else if c = 't' then
        match rest with
        | 'r' :: 'u' :: 'e' :: r => some (Json.bool true, r)
        | _ => none
      else if c = 'f' then
        match rest with
        | 'a' :: 'l' :: 's' :: 'e' :: r => some (Json.bool false, r)
        | _ => none
      else if c = '-' ∨ isDigitChar c then parseNum (c :: rest)
      else none

/-- Model of `json.loads(s)`: parse one JSON document; trailing whitespace is
allowed, trailing junk or a parse failure yields `none`
(`json.JSONDecodeError`). -/
def loads (s : String) : Option Json :=
  match parseVal (s.data.length + 1) s.data with
  | some (j, rest) => if skipWs rest = [] then some j else none
  | none => none

mutual

/-- Fuel bound for parsing one printed value. -/
def fsize : Json → Nat
  | .arr xs => 1 + fsizeList xs
  | .obj ms => 1 + fsizeMembers ms
  | _ => 1

/-- Fuel bound for parsing a printed item list. -/
def fsizeList : List Json → Nat
  | [] => 0
  | x :: xs => 1 + fsize x + fsizeList xs

/-- Fuel bound for parsing a printed member list. -/
def fsizeMembers : List (String × Json) → Nat
  | [] => 0
  | m :: ms => 1 + fsize m.2 + fsizeMembers ms

end

/-! ### Lemmas: maximal munch and number round trip -/

/-- Holds (`true`) when the next character (if any) is not a digit, so a maximal
digit run ends exactly here. -/
def notFollowedByDigit : List Char → Bool
  | [] => true
  | c :: _ => !isDigitChar c

/-! ### Lemmas: printed suffix shapes inside containers -/

/-- The characters following the first printed item of an array: either the
closing-bracket block or a comma and the next printed item. -/
def arrSuffix (l : Nat) : List Json → List Char → List Char
  | [], rest => '\n' :: (indentChars (2 * l) ++ ']' :: rest)
  | y :: ys, rest =>
      ',' :: ('\n' :: (indentChars (2 * l + 2)
        ++ (printChars (l + 1) y ++ arrSuffix l ys rest)))

/-- The characters following the first printed member of an object: either
the closing-brace block or a comma and the next printed member. -/
def objSuffix (l : Nat) : List (String × Json) → List Char → List Char
  | [], rest => '\n' :: (indentChars (2 * l) ++ '}' :: rest)
  | m :: ms, rest =>
      ',' :: ('\n' :: (indentChars (2 * l + 2)
        ++ ('"' :: (escChars m.1.data
          ++ '"' :: ':' :: ' ' :: (printChars (l + 1) m.2 ++ objSuffix l ms rest)))))

/-! ### Output Normalizer: `serialize_tool_output` (server.py lines 35-74)

A tool's raw return value is one of: a plain string, a JSON-serializable
dict, a pydantic model (v2 `model_dump_json` / `model_dump`, v1 `dict`), or
any other object rendered by `str()`.  Branches of the Python function that
raise are represented by constructors carrying `str(e)` of the exception.
-/

/-- The raw result value passed to `serialize_tool_output`, by the branch of
the Python function that handles it. -/
inductive PyValue where
  /-- `isinstance(result, str)` holds. -/
  | str (s : String)
  /-- `isinstance(result, dict)` holds and `json.dumps` succeeds. -/
  | dict (kvs : List (String × Json))
  /-- `isinstance(result, dict)` holds and `json.dumps` raises, with
  `str(e) = msg` (e.g. an unserializable value inside). -/
  | dictRaises (msg : String)
  /-- has `model_dump_json`; `model_dump_json(indent=2)` returns `s`. -/
  | model2 (s : String)
  /-- has `model_dump_json`, which raises `TypeError` on `indent`, and
  `json.dumps(result.model_dump(), indent=2)` succeeds on `j`. -/
  | model2IndentTypeError (j : Json)
  /-- has `model_dump_json`, which raises a non-`TypeError` exception with
  `str(e) = msg`. -/
  | model2Raises (msg : String)
  /-- no `model_dump_json` but has `model_dump`, yielding `j`. -/
  | modelDumpOnly (j : Json)
  /-- pydantic v1: only has `dict()`, yielding `j`. -/
  | model1 (j : Json)
  /-- none of the above; `str(result) = s`. -/
  | other (s : String)
  /-- none of the above and `str(result)` raises with `str(e) = msg`. -/
  | otherRaises (msg : String)
  deriving Repr

/-- The error envelope rendered by the final `except` clause of
`serialize_tool_output`. -/
def errEnvelope (toolName msg : String) : String :=
  dumps (Json.obj
    [("error", Json.str ("Serialization failed for tool " ++ toolName)),
     ("details", Json.str msg)])

/-- Model of `serialize_tool_output(result, tool_name)` (server.py lines 35-74): a
total function — the Python code catches every exception and always returns
a string. -/
def serialize_tool_output (result : PyValue) (toolName : String) : String :=
  match result with
  | .str s =>
    match loads s with
    | some parsed => dumps parsed
    | none => s
  | .dict kvs => dumps (Json.obj kvs)
  | .dictRaises msg => errEnvelope toolName msg
  | .model2 s => s
  | .model2IndentTypeError j => dumps j
  | .model2Raises msg => errEnvelope toolName msg
  | .modelDumpOnly j => dumps j
  | .model1 j => dumps j
  | .other s => s
  | .otherRaises msg => errEnvelope toolName msg

/-- The raising inputs on which every normalization strategy of
`serialize_tool_output` fails, with the exception text. -/
def raisesAllStrategies : PyValue → Option String
  | .dictRaises msg => some msg
  | .model2Raises msg => some msg
  | .otherRaises msg => some msg
  | _ => none

/-! ### Dispatch core: `ServiceNowMCP` (server.py)

The per-process session state holds the loaded package definitions, the
resolved package name, the enabled tool names, and the tool registry
(`get_tool_definitions` of `utils/tool_utils.py`).  A registry entry
bundles the pydantic argument parsing (`params_model(**arguments)`), the
implementation call (`impl_func(config, auth_manager, params)` with the
config and auth manager fixed), the schema generation
(`params_model.model_json_schema()`, `none` when it raises), and the
description.  Validated params and raw results are represented as `Json`
values; implementation failures carry `str(e)`. -/
structure ToolDef where
  validate : List (String × Json) → Except String Json
  run : Json → Except String PyValue
  schema : Option Json
  description : String

/-- Process-wide session state of a `ServiceNowMCP` instance after
`__init__` finished. -/
structure ServerState where
  packageDefinitions : List (String × List String)
  currentPackageName : String
  enabledToolNames : List String
  toolDefinitions : List (String × ToolDef)

/-- Model of `str.strip()` on the character level (ASCII whitespace suffices for the
values involved). -/
def pyStrip (s : String) : String :=
  String.mk (((s.data.dropWhile isWsChar).reverse.dropWhile isWsChar).reverse)

/-- Model of `ServiceNowMCP._determine_enabled_tools` (server.py lines 153-177) as a
function of the `MCP_TOOL_PACKAGE` environment value (`none` when unset)
and the loaded package definitions; returns the resolved
`(current_package_name, enabled_tool_names)`. -/
def determineEnabledTools (envPackage : Option String)
    (packageDefinitions : List (String × List String)) : String × List String :=
  let requestedPackage := pyStrip (envPackage.getD "full")
  let currentPackageName :=
    if requestedPackage = "" then "full"
    else if (packageDefinitions.map Prod.fst).contains requestedPackage then requestedPackage
    else "none"
  let enabledToolNames :=
    if packageDefinitions.isEmpty then []
    else (packageDefinitions.lookup currentPackageName).getD []
  (currentPackageName, enabledToolNames)

/-- One entry of the `list_tools` result: name, description, input schema. -/
abbrev ToolEntry := String × String × Json

/-- The built-in introspection tool added by `_list_tools_impl`
(server.py lines 184-200). -/
def introspectionTool : ToolEntry :=
  ("list_tool_packages",
   "Lists available tool packages and the currently loaded one.",
   Json.obj
     [("type", Json.str "object"),
      ("properties", Json.obj
        [("random_string", Json.obj
          [("type", Json.str "string"),
           ("description", Json.str "Dummy parameter for no-parameter tools")])]),
      ("required", Json.arr [Json.str "random_string"])])

/-- Model of `ServiceNowMCP._list_tools_impl` (server.py lines 179-219): start from
the introspection tool unless the active package is `"none"`, then append
one entry per enabled registry tool in registry order, skipping a tool
whose schema generation raises. -/
def listTools (st : ServerState) : List ToolEntry :=
  let init : List ToolEntry :=
    if st.currentPackageName ≠ "none" then [introspectionTool] else []
  st.toolDefinitions.foldl
    (fun acc nd =>
      if nd.1 ∈ st.enabledToolNames then
        match nd.2.schema with
        | some schema => acc ++ [(nd.1, nd.2.description, schema)]
        | none => acc
      else acc)
    init

/-- Python `repr` of a list of strings, as interpolated by an f-string
(quoting by `repr`; the package names involved contain no quotes). -/
def pyStrListRepr (xs : List String) : String :=
  "[" ++ String.intercalate ", " (xs.map (fun s => "'" ++ s ++ "'")) ++ "]"

/-- Model of `ServiceNowMCP._list_tool_packages_impl` (server.py lines 290-300). -/
def listToolPackagesImpl (st : ServerState) : List (String × Json) :=
  let availablePackages := st.packageDefinitions.map Prod.fst
  [("current_package", Json.str st.currentPackageName),
   ("available_packages", Json.arr (availablePackages.map Json.str)),
   ("message", Json.str
     ("Currently loaded package: '" ++ st.currentPackageName
      ++ "'. Set MCP_TOOL_PACKAGE env var to one of "
      ++ pyStrListRepr availablePackages ++ " to switch."))]

/-- The failures `_call_tool_impl` raises, by kind.  In the Python source
the first four are `ValueError`s with distinct messages and the last is a
`RuntimeError`; each constructor records the data interpolated into the
message. `operationNotFound` is `ValueError(f"Unknown tool: {name}")`;
`capabilityDisabled` is `ValueError(f"Tool '{name}' is not enabled in the
current package '{package}'.")` and, for the introspection tool under the
`"none"` package, `ValueError("Tool 'list_tool_packages' is not available
in the 'none' package.")`; `invalidArguments` is `ValueError` from argument
parsing; `executionFailed` is `RuntimeError(f"Error during execution of
tool '{name}': {e}")`. -/
inductive CallError where
  | operationNotFound (name : String)
  | capabilityDisabled (name package : String)
  | invalidArguments (name msg : String)
  | executionFailed (name msg : String)
  deriving Repr, DecidableEq

/-- Model of `ServiceNowMCP._call_tool_impl` (server.py lines 221-288), returning the
text of the single `TextContent` produced on success. -/
def callTool (st : ServerState) (name : String) (arguments : List (String × Json)) :
    Except CallError String :=
  if name = "list_tool_packages" then
    if st.currentPackageName = "none" then
      Except.error (CallError.capabilityDisabled "list_tool_packages" "none")
    else
      Except.ok (dumps (Json.obj (listToolPackagesImpl st)))
  else
    match st.toolDefinitions.lookup name with
    | none => Except.error (CallError.operationNotFound name)
    | some toolDef =>
      if name ∈ st.enabledToolNames then
        match toolDef.validate arguments with
        | Except.error msg => Except.error (CallError.invalidArguments name msg)
        | Except.ok params =>
          match toolDef.run params with
          | Except.error msg => Except.error (CallError.executionFailed name msg)
          | Except.ok result => Except.ok (serialize_tool_output result name)
      else
        Except.error (CallError.capabilityDisabled name st.currentPackageName)

/-! ### Case tools (tools/case_tools.py)

Each function performs one or two HTTP requests; a request is abstracted by
its outcome, of type `Except String Json`: `.ok body` is the parsed
`response.json()` after `raise_for_status()` passed, `.error e` a raised
`requests.RequestException` (which covers `raise_for_status` failures) with
`str(e) = e`.  Response payloads follow the table API contract (`"result"`
is a record or a list of records). -/

/-- Model of `dict.get(k)` on a JSON object (`none` when absent or not a dict). -/
def jsonGet : Json → String → Option Json
  | .obj ms, k => ms.lookup k
  | _, _ => none

/-- Model of `dict.get(k, default)` on a JSON object. -/
def jGetD (j : Json) (k : String) (d : Json) : Json := (jsonGet j k).getD d

/-- A JSON value as a Python `str`, when it is one. -/
def jsonAsStr : Json → Option String
  | .str s => some s
  | _ => none

/-- A JSON value as a Python `list`, `[]` otherwise. -/
def jsonAsList : Json → List Json
  | .arr xs => xs
  | _ => []

/-- Python truthiness (`if not result:`) of a JSON value. -/
def pyFalsy : Json → Bool
  | .null => true
  | .bool b => !b
  | .num n => n == 0
  | .str s => s.isEmpty
  | .arr xs => xs.isEmpty
  | .obj ms => ms.isEmpty

/-- Model of `len(case_id) == 32 and all(c in "0123456789abcdef" for c in case_id)`
(case_tools.py lines 111 and 231). -/
def isSysId (s : String) : Bool :=
  s.data.length == 32 && s.data.all (fun c => "0123456789abcdef".data.contains c)

/-- Model of `CreateCaseParams` (case_tools.py). -/
structure CreateCaseParams where
  short_description : String
  description : Option String := none
  contact : Option String := none
  account : Option String := none
  priority : Option String := none
  state : Option String := none
  assigned_to : Option String := none
  assignment_group : Option String := none

/-- Model of `UpdateCaseParams` (case_tools.py). -/
structure UpdateCaseParams where
  case_id : String
  short_description : Option String := none
  description : Option String := none
  contact : Option String := none
  account : Option String := none
  priority : Option String := none
  state : Option String := none
  assigned_to : Option String := none
  assignment_group : Option String := none

/-- Model of `ListCasesParams` (case_tools.py). -/
structure ListCasesParams where
  limit : Int := 10
  offset : Int := 0
  state : Option String := none
  priority : Option String := none
  query : Option String := none

/-- Model of `GetCaseParams` (case_tools.py). -/
structure GetCaseParams where
  case_id : String

/-- Model of `CaseResponse` (case_tools.py). -/
structure CaseResponse where
  success : Bool
  message : String
  case_id : Option String := none
  case_number : Option String := none
  deriving Repr, DecidableEq

/-- Model of `create_case` (case_tools.py lines 67-105); `postResult` abstracts the
POST to the case table. -/
def create_case (params : CreateCaseParams) (postResult : Except String Json) : CaseResponse :=
  match postResult with
  | .ok body =>
    let result := jGetD body "result" (Json.obj [])
    { success := true
      message := "Case created successfully"
      case_id := (jsonGet result "sys_id").bind jsonAsStr
      case_number := (jsonGet result "number").bind jsonAsStr }
  | .error e => { success := false, message := "Failed to create case: " ++ e }

/-- Model of `update_case` (case_tools.py lines 108-171); `lookupResult` abstracts
the number-to-sys_id GET (unused when `case_id` is already a sys_id),
`putResult` the PUT carrying the update. -/
def update_case (params : UpdateCaseParams) (lookupResult putResult : Except String Json) :
    CaseResponse :=
  let putBranch : Except String Json → CaseResponse := fun r =>
    match r with
    | .ok body =>
      let result := jGetD body "result" (Json.obj [])
      { success := true
        message := "Case updated successfully"
        case_id := (jsonGet result "sys_id").bind jsonAsStr
        case_number := (jsonGet result "number").bind jsonAsStr }
    | .error e => { success := false, message := "Failed to update case: " ++ e }
  if isSysId params.case_id then putBranch putResult
  else
    match lookupResult with
    | .error e => { success := false, message := "Failed to find case: " ++ e }
    | .ok body =>
      match jsonAsList (jGetD body "result" (Json.arr [])) with
      | [] => { success := false, message := "Case not found: " ++ params.case_id }
      | _ :: _ => putBranch putResult

/-- The per-record dict built by the `list_cases` loop (case_tools.py lines
203-217); also the `case_data` dict of `get_case` (lines 271-281). -/
def caseSummary (caseData : Json) : Json :=
  let assignedTo :=
    match jGetD caseData "assigned_to" Json.null with
    | .obj ms => (ms.lookup "display_value").getD Json.null
    | other => other
  Json.obj
    [("sys_id", jGetD caseData "sys_id" Json.null),
     ("number", jGetD caseData "number" Json.null),
     ("short_description", jGetD caseData "short_description" Json.null),
     ("description", jGetD caseData "description" Json.null),
     ("state", jGetD caseData "state" Json.null),
     ("priority", jGetD caseData "priority" Json.null),
     ("assigned_to", assignedTo),
     ("created_on", jGetD caseData "sys_created_on" Json.null),
     ("updated_on", jGetD caseData "sys_updated_on" Json.null)]

/-- Model of `list_cases` (case_tools.py lines 174-225); `getResult` abstracts the
GET on the case table. -/
def list_cases (params : ListCasesParams) (getResult : Except String Json) : Json :=
  match getResult with
  | .ok body =>
    let cases := (jsonAsList (jGetD body "result" (Json.arr []))).map caseSummary
    Json.obj
      [("success", Json.bool true),
       ("message", Json.str ("Found " ++ toString cases.length ++ " cases")),
       ("cases", Json.arr cases)]
  | .error e =>
    Json.obj
      [("success", Json.bool false),
       ("message", Json.str ("Failed to list cases: " ++ e)),
       ("cases", Json.arr [])]

/-- Model of `get_case` (case_tools.py lines 228-285); `lookupResult` abstracts the
number-to-sys_id GET (unused when `case_id` is already a sys_id),
`getResult` the GET of the record itself.  The local `case_id` rebinding of
the Python code (line 252) is threaded into the branch that reads it; a
missing `sys_id` renders as Python would render `None`. -/
def get_case (params : GetCaseParams) (lookupResult getResult : Except String Json) : Json :=
  let getBranch : String → Except String Json → Json := fun caseId r =>
    match r with
    | .error e =>
      Json.obj
        [("success", Json.bool false),
         ("message", Json.str ("Failed to get case: " ++ e))]
    | .ok body =>
      let result := jGetD body "result" (Json.obj [])
      if pyFalsy result then
        Json.obj
          [("success", Json.bool false),
           ("message", Json.str ("Case not found: " ++ caseId))]
      else
        Json.obj
          [("success", Json.bool true),
           ("case", caseSummary result)]
  if isSysId params.case_id then getBranch params.case_id getResult
  else
    match lookupResult with
    | .error e =>
      Json.obj
        [("success", Json.bool false),
         ("message", Json.str ("Failed to find case: " ++ e))]
    | .ok body =>
      match jsonAsList (jGetD body "result" (Json.arr [])) with
      | [] =>
        Json.obj
          [("success", Json.bool false),
           ("message", Json.str ("Case not found: " ++ params.case_id))]
      | first :: _ =>
        getBranch (((jsonGet first "sys_id").bind jsonAsStr).getD "None") getResult

/-! ### Helper definitions for the claim statements -/

/-- Holds when `pat` occurs at the start of `l`. -/
def startsWithSeq : List Char → List Char → Bool
  | p :: ps, q :: qs => q == p && startsWithSeq ps qs
  | [], _ => true
  | _, _ => false

/-- Holds when `pat` occurs contiguously somewhere in `l` (substring containment). -/
def hasSegment : List Char → List Char → Bool
  | pat, [] => pat.isEmpty
  | pat, c :: cs => startsWithSeq pat (c :: cs) || hasSegment pat cs

/-- A typical domain tool registry entry used to instantiate session
states in concrete scenarios. -/
def dummyToolDef : ToolDef :=
  { validate := fun _ => Except.ok Json.null
    run := fun _ => Except.ok (PyValue.str "ok")
    schema := some Json.null
    description := "dummy" }

/-- A registry entry whose implementation raises. -/
def failingToolDef : ToolDef :=
  { validate := fun _ => Except.ok Json.null
    run := fun _ => Except.error "boom"
    schema := some Json.null
    description := "failing" }

/-- A session state with one enabled domain tool under package `"full"`. -/
def exampleState : ServerState :=
  { packageDefinitions := [("full", ["create_case"])]
    currentPackageName := "full"
    enabledToolNames := ["create_case"]
    toolDefinitions := [("create_case", dummyToolDef)] }

/-- A session state whose package `"limited"` enables nothing. -/
def disabledState : ServerState :=
  { packageDefinitions := [("limited", [])]
    currentPackageName := "limited"
    enabledToolNames := []
    toolDefinitions := [("create_case", dummyToolDef)] }

/-- A session state whose single tool's implementation raises. -/
def failingState : ServerState :=
  { packageDefinitions := [("full", ["t"])]
    currentPackageName := "full"
    enabledToolNames := ["t"]
    toolDefinitions := [("t", failingToolDef)] }

/-! ### Lemmas: whitespace and heads -/

theorem skipWs_nil : skipWs [] = [] := rfl

theorem skipWs_cons_ws {c : Char} (h : isWsChar c = true) (cs : List Char) :
    skipWs (c :: cs) = skipWs cs := by
  simp [skipWs, List.dropWhile, h]

theorem skipWs_cons_not_ws {c : Char} (h : isWsChar c = false) (cs : List Char) :
    skipWs (c :: cs) = c :: cs := by
  simp [skipWs, List.dropWhile, h]

theorem skipWs_ws_append {w : List Char} (hw : ∀ c ∈ w, isWsChar c = true)
    (cs : List Char) : skipWs (w ++ cs) = skipWs cs := by
  induction w with
  | nil => rfl
  | cons c w ih =>
    rw [List.cons_append, skipWs_cons_ws (hw c (by simp))]
    exact ih (fun d hd => hw d (by simp [hd]))

theorem indent_ws {n : Nat} : ∀ c ∈ indentChars n, isWsChar c = true := by
  intro c hc
  have := List.eq_of_mem_replicate hc
  subst this
  rfl

theorem skipWs_indent (n : Nat) (cs : List Char) :
    skipWs (indentChars n ++ cs) = skipWs cs :=
  skipWs_ws_append indent_ws cs

/-! ### Lemmas: digits -/

theorem digitChar_digit (d : Nat) : isDigitChar (digitChar d) = true := by
  rcases d with _ | _ | _ | _ | _ | _ | _ | _ | _ | _ <;> rfl

theorem digit_not_ws {c : Char} (h : isDigitChar c = true) : isWsChar c = false := by
  simp only [isDigitChar, Bool.and_eq_true, decide_eq_true_eq] at h
  simp only [isWsChar, Bool.or_eq_false_iff, decide_eq_false_iff_not]
  refine ⟨⟨⟨?_, ?_⟩, ?_⟩, ?_⟩ <;> intro hc <;> subst hc <;> simp_all

theorem digit_ne {c : Char} (h : isDigitChar c = true) :
    c ≠ ']' ∧ c ≠ '-' ∧ c ≠ '"' ∧ c ≠ '[' ∧ c ≠ '{' ∧ c ≠ 'n' ∧ c ≠ 't' ∧ c ≠ 'f' ∧ c ≠ ',' := by
  simp only [isDigitChar, Bool.and_eq_true, decide_eq_true_eq] at h
  and_intros <;> intro hc <;> subst hc <;> simp_all

theorem charToDigit_digitChar {d : Nat} (h : d < 10) : charToDigit (digitChar d) = d := by
  interval_cases d <;> rfl

theorem natDigitsF_digits : ∀ f n c, c ∈ natDigitsF f n → isDigitChar c = true := by
  intro f
  induction f with
  | zero => intro n c hc; simp [natDigitsF] at hc
  | succ f ih =>
    intro n c hc
    by_cases h : n < 10
    · simp [natDigitsF, h] at hc
      subst hc
      exact digitChar_digit n
    · simp [natDigitsF, h] at hc
      rcases hc with hc | hc
      · exact ih _ _ hc
      · subst hc
        exact digitChar_digit (n % 10)

theorem natDigitsF_ne_nil (f n : Nat) : natDigitsF (f + 1) n ≠ [] := by
  by_cases h : n < 10 <;> simp [natDigitsF, h]

theorem natDigitsF_val : ∀ f n, n < 10 ^ f → digitsToNat (natDigitsF f n) = n := by
  intro f
  induction f with
  | zero =>
    intro n h
    simp at h
    subst h
    rfl
  | succ f ih =>
    intro n h
    by_cases hlt : n < 10
    · simp [natDigitsF, hlt, digitsToNat, charToDigit_digitChar hlt]
    · have hdiv : n / 10 < 10 ^ f := by
        rw [Nat.div_lt_iff_lt_mul (by norm_num)]
        calc n < 10 ^ (f + 1) := h
        _ = 10 ^ f * 10 := by rw [Nat.pow_succ]
      simp only [natDigitsF, hlt, if_false]
      unfold digitsToNat
      rw [List.foldl_append]
      have := ih (n / 10) hdiv
      unfold digitsToNat at this
      rw [this]
      simp [charToDigit_digitChar (Nat.mod_lt n (by norm_num))]
      omega

theorem natChars_digits {n : Nat} {c : Char} (hc : c ∈ natChars n) : isDigitChar c = true :=
  natDigitsF_digits _ _ _ hc

theorem natChars_ne_nil (n : Nat) : natChars n ≠ [] := natDigitsF_ne_nil n n

theorem natChars_val (n : Nat) : digitsToNat (natChars n) = n :=
  natDigitsF_val (n + 1) n
    (lt_of_lt_of_le (Nat.lt_pow_self (by norm_num) n)
      (Nat.pow_le_pow_right (by norm_num) (by omega)))

theorem takeWhile_digits_append (ds rest : List Char)
    (hds : ∀ c ∈ ds, isDigitChar c = true) (hrest : notFollowedByDigit rest = true) :
    (ds ++ rest).takeWhile isDigitChar = ds ∧ (ds ++ rest).dropWhile isDigitChar = rest := by
  induction ds with
  | nil =>
    simp only [List.nil_append]
    cases rest with
    | nil => simp
    | cons c cs =>
      simp only [notFollowedByDigit, Bool.not_eq_true'] at hrest
      simp [List.takeWhile, List.dropWhile, hrest]
  | cons d ds ih =>
    have hd := hds d (by simp)
    have ih' := ih (fun c hc => hds c (by simp [hc]))
    simp [List.takeWhile, List.dropWhile, hd, ih'.1, ih'.2]

theorem parseNatNum_round {n : Nat} {rest : List Char}
    (hrest : notFollowedByDigit rest = true) :
    parseNatNum (natChars n ++ rest) = some (n, rest) := by
  have h := takeWhile_digits_append (natChars n) rest
    (fun c hc => natChars_digits hc) hrest
  simp only [parseNatNum, h.1, h.2]
  have hne := natChars_ne_nil n
  simp [List.isEmpty_iff, hne, natChars_val]

theorem parseNum_round {i : Int} {rest : List Char}
    (hrest : notFollowedByDigit rest = true) :
    parseNum (intChars i ++ rest) = some (Json.num i, rest) := by
  by_cases hneg : i < 0
  · have hield : -(i.natAbs : Int) = i := by omega
    simp only [intChars, if_pos hneg, List.cons_append]
    simp only [parseNum, if_true]
    rw [parseNatNum_round hrest]
    simp [abs_of_neg hneg]
  · have hield : ((i.toNat : Nat) : Int) = i := by omega
    simp only [intChars, if_neg hneg]
    obtain ⟨c, cs, hcons⟩ : ∃ c cs, natChars i.toNat = c :: cs := by
      cases h : natChars i.toNat with
      | nil => exact absurd h (natChars_ne_nil _)
      | cons c cs => exact ⟨c, cs, rfl⟩
    have hcd : isDigitChar c = true := natChars_digits (by rw [hcons]; simp)
    rw [hcons, List.cons_append]
    simp only [parseNum]
    rw [if_neg (digit_ne hcd).2.1]
    rw [← List.cons_append, ← hcons, parseNatNum_round hrest]
    simp [hield]

/-! ### Lemmas: string round trip -/

theorem parseStrAux_backslash (cs : List Char) :
    parseStrAux false ('\\' :: cs) = parseStrAux true cs := rfl

theorem parseStrAux_esc (e c' : Char) (he : unescChar e = some c') (cs : List Char) :
    parseStrAux true (e :: cs) = (parseStrAux false cs).map (fun p => (c' :: p.1, p.2)) := by
  rw [parseStrAux, he]

theorem parseStrAux_other {c : Char} (h1 : ¬ c = '"') (h2 : ¬ c = '\\') (cs : List Char) :
    parseStrAux false (c :: cs) = (parseStrAux false cs).map (fun p => (c :: p.1, p.2)) := by
  rw [parseStrAux, if_neg h1, if_neg h2]

theorem parseStrAux_round : ∀ (cs rest : List Char),
    parseStrAux false (escChars cs ++ '"' :: rest) = some (cs, rest) := by
  intro cs
  induction cs with
  | nil => intro rest; rfl
  | cons c cs ih =>
    intro rest
    simp only [escChars, List.append_assoc]
    by_cases h1 : c = '"'
    · subst h1
      show parseStrAux false ('\\' :: '"' :: (escChars cs ++ '"' :: rest)) = _
      rw [parseStrAux_backslash, parseStrAux_esc '"' '"' rfl, ih rest]
      rfl
    · by_cases h2 : c = '\\'
      · subst h2
        show parseStrAux false ('\\' :: '\\' :: (escChars cs ++ '"' :: rest)) = _
        rw [parseStrAux_backslash, parseStrAux_esc '\\' '\\' rfl, ih rest]
        rfl
      · by_cases h3 : c = '\n'
        · subst h3
          show parseStrAux false ('\\' :: 'n' :: (escChars cs ++ '"' :: rest)) = _
          rw [parseStrAux_backslash, parseStrAux_esc 'n' '\n' rfl, ih rest]
          rfl
        · by_cases h4 : c = '\t'
          · subst h4
            show parseStrAux false ('\\' :: 't' :: (escChars cs ++ '"' :: rest)) = _
            rw [parseStrAux_backslash, parseStrAux_esc 't' '\t' rfl, ih rest]
            rfl
          · by_cases h5 : c = '\r'
            · subst h5
              show parseStrAux false ('\\' :: 'r' :: (escChars cs ++ '"' :: rest)) = _
              rw [parseStrAux_backslash, parseStrAux_esc 'r' '\r' rfl, ih rest]
              rfl
            · have hesc : escChar c = [c] := by
                simp [escChar, h1, h2, h3, h4, h5]
              rw [hesc, List.singleton_append]
              rw [parseStrAux_other h1 h2, ih rest]
              rfl

theorem parseStringBody_round (cs rest : List Char) :
    parseStringBody (escChars cs ++ '"' :: rest) = some (cs, rest) :=
  parseStrAux_round cs rest

/-! ### Lemmas: fuel bounds -/

theorem fsize_pos (j : Json) : 1 ≤ fsize j := by
  cases j <;> simp [fsize]

theorem fsizeList_mem (y : Json) : ∀ (xs : List Json), y ∈ xs → fsize y ≤ fsizeList xs := by
  intro xs
  induction xs with
  | nil => intro hy; simp at hy
  | cons z zs ih =>
    intro hy
    rcases List.mem_cons.mp hy with rfl | hy2
    · simp [fsizeList]
      omega
    · have := ih hy2
      simp [fsizeList]
      omega

theorem fsizeMembers_mem (k : String) (v : Json) :
    ∀ (ms : List (String × Json)), (k, v) ∈ ms → fsize v ≤ fsizeMembers ms := by
  intro ms
  induction ms with
  | nil => intro hm; simp at hm
  | cons z zs ih =>
    intro hm
    rcases List.mem_cons.mp hm with rfl | hm2
    · simp [fsizeMembers]
      omega
    · have := ih hm2
      simp [fsizeMembers]
      omega

theorem length_le_fsizeList : ∀ (xs : List Json), xs.length ≤ fsizeList xs := by
  intro xs
  induction xs with
  | nil => simp [fsizeList]
  | cons x xs ih =>
    have := fsize_pos x
    simp [fsizeList]
    omega

theorem length_le_fsizeMembers : ∀ (ms : List (String × Json)), ms.length ≤ fsizeMembers ms := by
  intro ms
  induction ms with
  | nil => simp [fsizeMembers]
  | cons m ms ih =>
    have := fsize_pos m.2
    simp [fsizeMembers]
    omega

/-! ### Lemmas: heads of printed values -/

theorem printHead (l : Nat) (j : Json) :
    ∃ c cs, printChars l j = c :: cs ∧ isWsChar c = false ∧ c ≠ ']' := by
  cases j with
  | null => exact ⟨'n', ['u', 'l', 'l'], by simp [printChars], by decide, by decide⟩
  | bool b =>
    cases b with
    | false => exact ⟨'f', ['a', 'l', 's', 'e'], by simp [printChars], by decide, by decide⟩
    | true => exact ⟨'t', ['r', 'u', 'e'], by simp [printChars], by decide, by decide⟩
  | num n =>
    by_cases hneg : n < 0
    · exact ⟨'-', natChars n.natAbs, by simp [printChars, intChars, hneg], by decide, by decide⟩
    · obtain ⟨c, cs, hcons⟩ : ∃ c cs, natChars n.toNat = c :: cs := by
        cases h : natChars n.toNat with
        | nil => exact absurd h (natChars_ne_nil _)
        | cons c cs => exact ⟨c, cs, rfl⟩
      have hcd : isDigitChar c = true := natChars_digits (by rw [hcons]; simp)
      exact ⟨c, cs, by simp [printChars, intChars, hneg, hcons],
        digit_not_ws hcd, (digit_ne hcd).1⟩
  | str s =>
    refine ⟨'"', escChars s.data ++ ['"'], by simp [printChars], by decide, by decide⟩
  | arr xs =>
    cases xs with
    | nil => exact ⟨'[', [']'], by simp [printChars], by decide, by decide⟩
    | cons x xs =>
      exact ⟨'[', printElems l (x :: xs) ++ '\n' :: (indentChars (2 * l) ++ [']']),
        by simp [printChars], by decide, by decide⟩
  | obj ms =>
    cases ms with
    | nil => exact ⟨'{', ['}'], by simp [printChars], by decide, by decide⟩
    | cons m ms =>
      exact ⟨'{', printMembers l (m :: ms) ++ '\n' :: (indentChars (2 * l) ++ ['}']),
        by simp [printChars], by decide, by decide⟩

theorem arrSuffix_nfbd (l : Nat) (xs : List Json) (rest : List Char) :
    notFollowedByDigit (arrSuffix l xs rest) = true := by
  cases xs <;> rfl

theorem objSuffix_nfbd (l : Nat) (ms : List (String × Json)) (rest : List Char) :
    notFollowedByDigit (objSuffix l ms rest) = true := by
  cases ms <;> rfl

theorem printElems_decomp (l : Nat) : ∀ (x : Json) (xs : List Json) (rest : List Char),
    printElems l (x :: xs) ++ ('\n' :: (indentChars (2 * l) ++ ']' :: rest))
    = '\n' :: (indentChars (2 * l + 2) ++ (printChars (l + 1) x ++ arrSuffix l xs rest)) := by
  intro x xs
  induction xs generalizing x with
  | nil =>
    intro rest
    simp [printElems, arrSuffix, List.append_assoc]
  | cons y ys ih =>
    intro rest
    have hrec := ih y rest
    simp only [printElems, List.cons_append, List.append_assoc] at *
    rw [hrec]
    simp [arrSuffix, List.append_assoc]

theorem printMembers_decomp (l : Nat) :
    ∀ (m : String × Json) (ms : List (String × Json)) (rest : List Char),
    printMembers l (m :: ms) ++ ('\n' :: (indentChars (2 * l) ++ '}' :: rest))
    = '\n' :: (indentChars (2 * l + 2)
        ++ ('"' :: (escChars m.1.data
          ++ '"' :: ':' :: ' ' :: (printChars (l + 1) m.2 ++ objSuffix l ms rest)))) := by
  intro m ms
  induction ms generalizing m with
  | nil =>
    intro rest
    obtain ⟨k, v⟩ := m
    simp [printMembers, objSuffix, List.append_assoc]
  | cons m2 ms2 ih =>
    intro rest
    obtain ⟨k, v⟩ := m
    obtain ⟨k2, v2⟩ := m2
    have hrec := ih (k2, v2) rest
    simp only [printMembers, List.cons_append, List.append_assoc] at *
    rw [hrec]
    simp [objSuffix, List.append_assoc]

/-! ### Lemmas: container round trips -/

theorem newline_indent_ws (n : Nat) : ∀ c ∈ '\n' :: indentChars n, isWsChar c = true := by
  intro c hc
  rcases List.mem_cons.mp hc with rfl | h2
  · rfl
  · exact indent_ws c h2

theorem parseArrElems_step (pv : List Char → Option (Json × List Char)) (g : Nat)
    (cs : List Char) (j : Json) (r : List Char) (h : pv cs = some (j, r)) :
    parseArrElems pv (g + 1) cs =
      match skipWs r with
      | ',' :: r2 =>
        match parseArrElems pv g r2 with
        | none => none
        | some (js, rr) => some (j :: js, rr)
      | ']' :: r2 => some ([j], r2)
      | _ => none := by
  rw [parseArrElems, h]

theorem parseArrElems_round (f : Nat)
    (hpv : ∀ (j : Json) (l : Nat) (w rest : List Char),
      (∀ c ∈ w, isWsChar c = true) → fsize j ≤ f → notFollowedByDigit rest = true →
      parseVal f (w ++ (printChars l j ++ rest)) = some (j, rest)) :
    ∀ (xs : List Json) (x : Json) (g l : Nat) (w rest : List Char),
      (∀ c ∈ w, isWsChar c = true) →
      fsize x ≤ f → (∀ y ∈ xs, fsize y ≤ f) → xs.length < g →
      notFollowedByDigit rest = true →
      parseArrElems (parseVal f) g (w ++ (printChars (l + 1) x ++ arrSuffix l xs rest))
        = some (x :: xs, rest) := by
  intro xs
  induction xs with
  | nil =>
    intro x g l w rest hw hx _ hg hrest
    obtain ⟨g', rfl⟩ : ∃ g', g = g' + 1 := ⟨g - 1, by omega⟩
    rw [parseArrElems_step (parseVal f) g' _ x (arrSuffix l [] rest)
      (hpv x (l + 1) w (arrSuffix l [] rest) hw hx (arrSuffix_nfbd l [] rest))]
    have hskip : skipWs (arrSuffix l [] rest) = ']' :: rest := by
      show skipWs ('\n' :: (indentChars (2 * l) ++ ']' :: rest)) = ']' :: rest
      rw [skipWs_cons_ws (by decide), skipWs_indent, skipWs_cons_not_ws (by decide)]
    rw [hskip]
    rfl
  | cons y ys ih =>
    intro x g l w rest hw hx hys hg hrest
    obtain ⟨g', rfl⟩ : ∃ g', g = g' + 1 := ⟨g - 1, by omega⟩
    rw [parseArrElems_step (parseVal f) g' _ x (arrSuffix l (y :: ys) rest)
      (hpv x (l + 1) w (arrSuffix l (y :: ys) rest) hw hx (arrSuffix_nfbd l (y :: ys) rest))]
    have hskip : skipWs (arrSuffix l (y :: ys) rest)
        = ',' :: ('\n' :: (indentChars (2 * l + 2)
            ++ (printChars (l + 1) y ++ arrSuffix l ys rest))) := by
      show skipWs (',' :: _) = _
      rw [skipWs_cons_not_ws (by decide)]
    rw [hskip]
    have harr := ih y g' l ('\n' :: indentChars (2 * l + 2)) rest
      (newline_indent_ws (2 * l + 2)) (hys y (by simp))
      (fun z hz => hys z (by simp [hz])) (by simp at hg ⊢; omega) hrest
    simp only [List.cons_append] at harr
    simp [harr]

theorem parseObjMembers_step (pv : List Char → Option (Json × List Char)) (g : Nat)
    (w kcs vtail : List Char) (hw : ∀ c ∈ w, isWsChar c = true) (v : Json) (r3 : List Char)
    (hv : pv (' ' :: vtail) = some (v, r3)) :
    parseObjMembers pv (g + 1) (w ++ ('"' :: (escChars kcs ++ '"' :: ':' :: ' ' :: vtail)))
      = match skipWs r3 with
        | ',' :: r4 =>
          match parseObjMembers pv g r4 with
          | none => none
          | some (ms, rr) => some ((String.mk kcs, v) :: ms, rr)
        | '}' :: r4 => some ([(String.mk kcs, v)], r4)
        | _ => none := by
  rw [parseObjMembers, skipWs_ws_append hw, skipWs_cons_not_ws (by decide)]
  have hcolon : isWsChar ':' = false := by decide
  simp only [parseStringBody_round kcs (':' :: ' ' :: vtail), skipWs_cons_not_ws hcolon, hv]

theorem parseObjMembers_round (f : Nat)
    (hpv : ∀ (j : Json) (l : Nat) (w rest : List Char),
      (∀ c ∈ w, isWsChar c = true) → fsize j ≤ f → notFollowedByDigit rest = true →
      parseVal f (w ++ (printChars l j ++ rest)) = some (j, rest)) :
    ∀ (ms : List (String × Json)) (k : String) (v : Json) (g l : Nat) (w rest : List Char),
      (∀ c ∈ w, isWsChar c = true) →
      fsize v ≤ f → (∀ m ∈ ms, fsize m.2 ≤ f) → ms.length < g →
      notFollowedByDigit rest = true →
      parseObjMembers (parseVal f) g
        (w ++ ('"' :: (escChars k.data
          ++ '"' :: ':' :: ' ' :: (printChars (l + 1) v ++ objSuffix l ms rest))))
        = some ((k, v) :: ms, rest) := by
  intro ms
  induction ms with
  | nil =>
    intro k v g l w rest hw hv _ hg hrest
    obtain ⟨g', rfl⟩ : ∃ g', g = g' + 1 := ⟨g - 1, by omega⟩
    have hval := hpv v (l + 1) [' '] (objSuffix l [] rest) (by decide) hv
      (objSuffix_nfbd l [] rest)
    simp only [List.singleton_append] at hval
    rw [parseObjMembers_step (parseVal f) g' w k.data
      (printChars (l + 1) v ++ objSuffix l [] rest) hw v (objSuffix l [] rest) hval]
    have hskip : skipWs (objSuffix l [] rest) = '}' :: rest := by
      show skipWs ('\n' :: (indentChars (2 * l) ++ '}' :: rest)) = '}' :: rest
      rw [skipWs_cons_ws (by decide), skipWs_indent, skipWs_cons_not_ws (by decide)]
    rw [hskip]
    rfl
  | cons m ms2 ih =>
    intro k v g l w rest hw hv hms hg hrest
    obtain ⟨g', rfl⟩ : ∃ g', g = g' + 1 := ⟨g - 1, by omega⟩
    obtain ⟨k2, v2⟩ := m
    have hval := hpv v (l + 1) [' '] (objSuffix l ((k2, v2) :: ms2) rest) (by decide) hv
      (objSuffix_nfbd l ((k2, v2) :: ms2) rest)
    simp only [List.singleton_append] at hval
    rw [parseObjMembers_step (parseVal f) g' w k.data
      (printChars (l + 1) v ++ objSuffix l ((k2, v2) :: ms2) rest) hw v
      (objSuffix l ((k2, v2) :: ms2) rest) hval]
    have hskip : skipWs (objSuffix l ((k2, v2) :: ms2) rest)
        = ',' :: ('\n' :: (indentChars (2 * l + 2)
            ++ ('"' :: (escChars k2.data
              ++ '"' :: ':' :: ' ' :: (printChars (l + 1) v2 ++ objSuffix l ms2 rest))))) := by
      show skipWs (',' :: _) = _
      rw [skipWs_cons_not_ws (by decide)]
    rw [hskip]
    have hobj := ih k2 v2 g' l ('\n' :: indentChars (2 * l + 2)) rest
      (newline_indent_ws (2 * l + 2)) (hms (k2, v2) (by simp))
      (fun z hz => hms z (by simp [hz])) (by simp at hg ⊢; omega) hrest
    simp only [List.cons_append] at hobj
    simp [hobj]

theorem parseVal_round :
    ∀ (fuel : Nat) (j : Json) (l : Nat) (w rest : List Char),
      (∀ c ∈ w, isWsChar c = true) → fsize j ≤ fuel →
      notFollowedByDigit rest = true →
      parseVal fuel (w ++ (printChars l j ++ rest)) = some (j, rest) := by
  intro fuel
  induction fuel with
  | zero =>
    intro j l w rest _ hsz _
    have := fsize_pos j
    omega
  | succ f ih =>
    intro j l w rest hw hsz hrest
    rw [parseVal, skipWs_ws_append hw]
    cases j with
    | null =>
      have hpc : printChars l Json.null = 'n' :: 'u' :: 'l' :: 'l' :: [] := by
        simp [printChars]
      rw [hpc]
      simp only [List.cons_append, List.nil_append]
      rfl
    | bool b =>
      cases b with
      | true =>
        have hpc : printChars l (Json.bool true) = 't' :: 'r' :: 'u' :: 'e' :: [] := by
          simp [printChars]
        rw [hpc]
        simp only [List.cons_append, List.nil_append]
        rfl
      | false =>
        have hpc : printChars l (Json.bool false) = 'f' :: 'a' :: 'l' :: 's' :: 'e' :: [] := by
          simp [printChars]
        rw [hpc]
        simp only [List.cons_append, List.nil_append]
        rfl
    | num n =>
      have hpc : printChars l (Json.num n) = intChars n := by simp [printChars]
      rw [hpc]
      obtain ⟨c, cs, hcons, hdisj⟩ :
          ∃ c cs, intChars n = c :: cs ∧ (c = '-' ∨ isDigitChar c = true) := by
        by_cases hneg : n < 0
        · exact ⟨'-', natChars n.natAbs, by simp [intChars, hneg], Or.inl rfl⟩
        · obtain ⟨c, cs, h⟩ : ∃ c cs, natChars n.toNat = c :: cs := by
            cases hh : natChars n.toNat with
            | nil => exact absurd hh (natChars_ne_nil _)
            | cons c cs => exact ⟨c, cs, rfl⟩
          exact ⟨c, cs, by simp [intChars, hneg, h],
            Or.inr (natChars_digits (by rw [h]; simp))⟩
      rw [hcons, List.cons_append]
      have hnws : isWsChar c = false := by
        rcases hdisj with rfl | hd
        · decide
        · exact digit_not_ws hd
      rw [skipWs_cons_not_ws hnws]
      have h1 : ¬ c = '"' := by
        rcases hdisj with rfl | hd
        · decide
        · exact (digit_ne hd).2.2.1
      have h2 : ¬ c = '[' := by
        rcases hdisj with rfl | hd
        · decide
        · exact (digit_ne hd).2.2.2.1
      have h3 : ¬ c = '{' := by
        rcases hdisj with rfl | hd
        · decide
        · exact (digit_ne hd).2.2.2.2.1
      have h4 : ¬ c = 'n' := by
        rcases hdisj with rfl | hd
        · decide
        · exact (digit_ne hd).2.2.2.2.2.1
      have h5 : ¬ c = 't' := by
        rcases hdisj with rfl | hd
        · decide
        · exact (digit_ne hd).2.2.2.2.2.2.1
      have h6 : ¬ c = 'f' := by
        rcases hdisj with rfl | hd
        · decide
        · exact (digit_ne hd).2.2.2.2.2.2.2.1
      simp [h1, h2, h3, h4, h5, h6, hdisj]
      rw [← List.cons_append, ← hcons]
      exact parseNum_round hrest
    | str s =>
      have hpc : printChars l (Json.str s) = '"' :: (escChars s.data ++ ['"']) := by
        simp [printChars]
      rw [hpc]
      simp only [List.cons_append, List.append_assoc, List.singleton_append]
      rw [skipWs_cons_not_ws (by decide)]
      simp [parseStringBody_round s.data rest]
    | arr xs =>
      cases xs with
      | nil =>
        have hpc : printChars l (Json.arr []) = '[' :: ']' :: [] := by simp [printChars]
        rw [hpc]
        simp only [List.cons_append, List.nil_append]
        rfl
      | cons x xs2 =>
        have hpc : printChars l (Json.arr (x :: xs2))
            = '[' :: (printElems l (x :: xs2) ++ '\n' :: (indentChars (2 * l) ++ [']'])) := by
          simp [printChars]
        rw [hpc]
        simp only [List.cons_append]
        rw [skipWs_cons_not_ws (by decide)]
        have hre : (printElems l (x :: xs2) ++ '\n' :: (indentChars (2 * l) ++ [']'])) ++ rest
            = '\n' :: (indentChars (2 * l + 2)
                ++ (printChars (l + 1) x ++ arrSuffix l xs2 rest)) := by
          have hd := printElems_decomp l x xs2 rest
          simp only [List.append_assoc, List.cons_append, List.singleton_append] at hd ⊢
          exact hd
        obtain ⟨c0, cs0, hc0, hnws0, hne0⟩ := printHead (l + 1) x
        have hskip : skipWs ('\n' :: (indentChars (2 * l + 2)
            ++ (printChars (l + 1) x ++ arrSuffix l xs2 rest)))
            = printChars (l + 1) x ++ arrSuffix l xs2 rest := by
          rw [skipWs_cons_ws (by decide), skipWs_indent, hc0, List.cons_append,
            skipWs_cons_not_ws hnws0, ← List.cons_append, ← hc0]
        have hhead : (printChars (l + 1) x ++ arrSuffix l xs2 rest).head? = some c0 := by
          rw [hc0]
          rfl
        have hne' : ¬ (printChars (l + 1) x ++ arrSuffix l xs2 rest).head? = some ']' := by
          rw [hhead]
          simp [hne0]
        have hfl : fsizeList (x :: xs2) ≤ f := by
          simp [fsize] at hsz
          omega
        have hx : fsize x ≤ f := le_trans (fsizeList_mem x (x :: xs2) (by simp)) hfl
        have hxs : ∀ y ∈ xs2, fsize y ≤ f :=
          fun y hy => le_trans (fsizeList_mem y (x :: xs2) (by simp [hy])) hfl
        have hlen : xs2.length < f := by
          have := length_le_fsizeList (x :: xs2)
          simp at this
          omega
        have harr := parseArrElems_round f ih xs2 x f l [] rest (by simp) hx hxs hlen hrest
        simp only [List.nil_append] at harr
        simp [hre, hskip, hne', harr]
        refine ⟨?_, ?_⟩
        · rw [hc0]
          simp [hne0]
        · intro hnil
          rw [hnil] at hc0
          simp at hc0
    | obj ms =>
      cases ms with
      | nil =>
        have hpc : printChars l (Json.obj []) = '{' :: '}' :: [] := by simp [printChars]
        rw [hpc]
        simp only [List.cons_append, List.nil_append]
        rfl
      | cons m ms2 =>
        obtain ⟨k, v⟩ := m
        have hpc : printChars l (Json.obj ((k, v) :: ms2))
            = '{' :: (printMembers l ((k, v) :: ms2)
                ++ '\n' :: (indentChars (2 * l) ++ ['}'])) := by
          simp [printChars]
        rw [hpc]
        simp only [List.cons_append]
        rw [skipWs_cons_not_ws (by decide)]
        have hre : (printMembers l ((k, v) :: ms2)
              ++ '\n' :: (indentChars (2 * l) ++ ['}'])) ++ rest
            = '\n' :: (indentChars (2 * l + 2)
                ++ ('"' :: (escChars k.data
                  ++ '"' :: ':' :: ' ' :: (printChars (l + 1) v ++ objSuffix l ms2 rest)))) := by
          have hd := printMembers_decomp l (k, v) ms2 rest
          simp only [List.append_assoc, List.cons_append, List.singleton_append] at hd ⊢
          exact hd
        have hskip : skipWs ('\n' :: (indentChars (2 * l + 2)
            ++ ('"' :: (escChars k.data
              ++ '"' :: ':' :: ' ' :: (printChars (l + 1) v ++ objSuffix l ms2 rest)))))
            = '"' :: (escChars k.data
              ++ '"' :: ':' :: ' ' :: (printChars (l + 1) v ++ objSuffix l ms2 rest)) := by
          rw [skipWs_cons_ws (by decide), skipWs_indent, skipWs_cons_not_ws (by decide)]
        have hfm : fsizeMembers ((k, v) :: ms2) ≤ f := by
          simp [fsize] at hsz
          omega
        have hv : fsize v ≤ f := le_trans (fsizeMembers_mem k v ((k, v) :: ms2) (by simp)) hfm
        have hms : ∀ z ∈ ms2, fsize z.2 ≤ f := by
          intro z hz
          obtain ⟨k2, v2⟩ := z
          exact le_trans (fsizeMembers_mem k2 v2 ((k, v) :: ms2) (by simp [hz])) hfm
        have hlen : ms2.length < f := by
          have := length_le_fsizeMembers ((k, v) :: ms2)
          simp at this
          omega
        have hobj := parseObjMembers_round f ih ms2 k v f l [] rest (by simp) hv hms hlen hrest
        simp only [List.nil_append] at hobj
        simp [hre, hskip, hobj]

/-! ### The round trip: parsing a dumped value gives the value back -/

theorem fsize_le_len_aux : ∀ (n : Nat) (j : Json) (l : Nat),
    sizeOf j ≤ n → fsize j ≤ (printChars l j).length := by
  intro n
  induction n with
  | zero =>
    intro j l h
    cases j <;> simp at h
  | succ n IH =>
    intro j l h
    cases j with
    | null => simp [fsize, printChars]
    | bool b => cases b <;> simp [fsize, printChars]
    | num m =>
      simp only [fsize, printChars]
      by_cases hneg : m < 0
      · simp [intChars, hneg]
      · simp only [intChars, if_neg hneg]
        have := List.length_pos.mpr (natChars_ne_nil m.toNat)
        omega
    | str s =>
      simp [fsize, printChars]
    | arr xs =>
      have hsub : sizeOf xs ≤ n := by
        simp at h
        omega
      have hmem : ∀ y ∈ xs, sizeOf y ≤ n :=
        fun y hy => le_trans (le_of_lt (List.sizeOf_lt_of_mem hy)) hsub
      cases xs with
      | nil => simp [fsize, fsizeList, printChars]
      | cons x xs2 =>
        have helems : ∀ (ys : List Json) (x0 : Json) (l0 : Nat),
            sizeOf x0 ≤ n → (∀ y ∈ ys, sizeOf y ≤ n) →
            fsizeList (x0 :: ys) ≤ (printElems l0 (x0 :: ys)).length := by
          intro ys
          induction ys with
          | nil =>
            intro x0 l0 hx0 _
            have hb := IH x0 (l0 + 1) hx0
            simp [fsizeList, printElems, indentChars]
            omega
          | cons y ys2 ihy =>
            intro x0 l0 hx0 hmem2
            have hb := IH x0 (l0 + 1) hx0
            have hrec := ihy y l0 (hmem2 y (by simp)) (fun z hz => hmem2 z (by simp [hz]))
            simp [fsizeList, printElems, indentChars] at hrec ⊢
            omega
        have hx : sizeOf x ≤ n := hmem x (by simp)
        have hxs2 : ∀ y ∈ xs2, sizeOf y ≤ n := fun y hy => hmem y (by simp [hy])
        have := helems xs2 x l hx hxs2
        simp [fsize, printChars, indentChars] at this ⊢
        omega
    | obj ms =>
      have hsub : sizeOf ms ≤ n := by
        simp at h
        omega
      have hmem : ∀ m ∈ ms, sizeOf m.2 ≤ n := by
        intro m hm
        have h1 := List.sizeOf_lt_of_mem hm
        obtain ⟨k, v⟩ := m
        have h2 : sizeOf v < sizeOf (k, v) := by
          simp
        show sizeOf v ≤ n
        omega
      cases ms with
      | nil => simp [fsize, fsizeMembers, printChars]
      | cons m ms2 =>
        have hmems : ∀ (zs : List (String × Json)) (m0 : String × Json) (l0 : Nat),
            sizeOf m0.2 ≤ n → (∀ z ∈ zs, sizeOf z.2 ≤ n) →
            fsizeMembers (m0 :: zs) ≤ (printMembers l0 (m0 :: zs)).length := by
          intro zs
          induction zs with
          | nil =>
            intro m0 l0 hm0 _
            obtain ⟨k, v⟩ := m0
            have hb := IH v (l0 + 1) hm0
            simp [fsizeMembers, printMembers, indentChars]
            omega
          | cons z zs2 ihz =>
            intro m0 l0 hm0 hmem2
            obtain ⟨k, v⟩ := m0
            obtain ⟨k2, v2⟩ := z
            have hb := IH v (l0 + 1) hm0
            have hrec := ihz (k2, v2) l0 (hmem2 (k2, v2) (by simp)) (fun u hu => hmem2 u (by simp [hu]))
            simp [fsizeMembers, printMembers, indentChars] at hrec ⊢
            omega
        have hm : sizeOf m.2 ≤ n := hmem m (by simp)
        have hms2 : ∀ z ∈ ms2, sizeOf z.2 ≤ n := fun z hz => hmem z (by simp [hz])
        have := hmems ms2 m l hm hms2
        simp [fsize, printChars, indentChars] at this ⊢
        omega

theorem fsize_le_len (j : Json) (l : Nat) : fsize j ≤ (printChars l j).length :=
  fsize_le_len_aux (sizeOf j) j l (le_refl _)

theorem loads_dumps (j : Json) : loads (dumps j) = some j := by
  unfold loads dumps
  have hround := parseVal_round ((printChars 0 j).length + 1) j 0 [] [] (by simp)
    (le_trans (fsize_le_len j 0) (by omega)) rfl
  simp only [List.nil_append, List.append_nil] at hround
  rw [show (String.mk (printChars 0 j)).data = printChars 0 j from rfl, hround]
  rfl

/-! ### Helper lemmas for the claim proofs -/

theorem startsWithSeq_self_append : ∀ (pat suf : List Char),
    startsWithSeq pat (pat ++ suf) = true := by
  intro pat
  induction pat with
  | nil => intro suf; cases suf <;> rfl
  | cons a as ih =>
    intro suf
    simp [startsWithSeq, ih]

theorem hasSegment_of_append : ∀ (pre pat suf : List Char),
    hasSegment pat (pre ++ (pat ++ suf)) = true := by
  intro pre
  induction pre with
  | nil =>
    intro pat suf
    simp only [List.nil_append]
    cases pat with
    | nil => cases suf <;> simp [hasSegment, startsWithSeq]
    | cons p ps =>
      have hstart := startsWithSeq_self_append (p :: ps) suf
      simp only [List.cons_append] at hstart
      simp [hasSegment, hstart]
  | cons a pre' ih =>
    intro pat suf
    simp [hasSegment, ih pat suf]

theorem escChars_append : ∀ (a b : List Char), escChars (a ++ b) = escChars a ++ escChars b := by
  intro a
  induction a with
  | nil => intro b; rfl
  | cons c cs ih =>
    intro b
    simp [escChars, ih, List.append_assoc]

theorem escChars_id {cs : List Char} (h : ∀ c ∈ cs, escChar c = [c]) :
    escChars cs = cs := by
  induction cs with
  | nil => rfl
  | cons c cs2 ih =>
    rw [escChars, h c (by simp), ih (fun d hd => h d (by simp [hd]))]
    rfl

theorem string_append_data (a b : String) : (a ++ b).data = a.data ++ b.data := by
  obtain ⟨as⟩ := a
  obtain ⟨bs⟩ := b
  rfl

theorem string_append_ne_empty {a : String} (h : a.data ≠ []) (b : String) : a ++ b ≠ "" := by
  intro hcontra
  have hd : (a ++ b).data = [] := by rw [hcontra]
  rw [string_append_data] at hd
  exact h (List.append_eq_nil.mp hd).1

theorem listTools_eq (st : ServerState) :
    listTools st
      = (if st.currentPackageName ≠ "none" then [introspectionTool] else [])
        ++ st.toolDefinitions.filterMap
          (fun nd =>
            if nd.1 ∈ st.enabledToolNames then
              nd.2.schema.map (fun schema => (nd.1, nd.2.description, schema))
            else none) := by
  have main : ∀ (defs : List (String × ToolDef)) (acc : List ToolEntry),
      defs.foldl
        (fun acc nd =>
          if nd.1 ∈ st.enabledToolNames then
            match nd.2.schema with
            | some schema => acc ++ [(nd.1, nd.2.description, schema)]
            | none => acc
          else acc) acc
      = acc ++ defs.filterMap
          (fun nd =>
            if nd.1 ∈ st.enabledToolNames then
              nd.2.schema.map (fun schema => (nd.1, nd.2.description, schema))
            else none) := by
    intro defs
    induction defs with
    | nil => intro acc; simp
    | cons d ds ih =>
      intro acc
      simp only [List.foldl_cons, List.filterMap_cons]
      by_cases hmem : d.1 ∈ st.enabledToolNames
      · cases hschema : d.2.schema with
        | none => rw [ih]; simp [hmem, hschema]
        | some sc => rw [ih]; simp [hmem, hschema]
      · rw [ih]; simp [hmem]
  exact main st.toolDefinitions _

/-! ### Claims -/

/-- C1: for every invoke whose name (not the reserved introspection name) is
not a key of the registry, `invoke` fails with `OperationNotFound`,
regardless of the enabled set — the registry check runs first; for every
name that is a registry key but not in the enabled set, it fails with
`CapabilityDisabled`; the two errors are distinct. -/
theorem C1_invoke_gating (st : ServerState) (name : String)
    (arguments : List (String × Json)) (hname : name ≠ "list_tool_packages") :
    (st.toolDefinitions.lookup name = none →
      callTool st name arguments = Except.error (CallError.operationNotFound name))
    ∧ (∀ d, st.toolDefinitions.lookup name = some d → name ∉ st.enabledToolNames →
      callTool st name arguments
        = Except.error (CallError.capabilityDisabled name st.currentPackageName))
    ∧ (∀ n n2 p, CallError.operationNotFound n ≠ CallError.capabilityDisabled n2 p) := by
  refine ⟨?_, ?_, ?_⟩
  · intro hlk
    simp [callTool, hname, hlk]
  · intro d hlk hmem
    simp [callTool, hname, hlk, hmem]
  · intro n n2 p h
    cases h

/-- C1 witness: an unknown name fails with `OperationNotFound` (even though
it is also not enabled), and a known-but-disabled name fails with
`CapabilityDisabled`. -/
theorem C1_invoke_gating_witness :
    callTool exampleState "nope" [] = Except.error (CallError.operationNotFound "nope")
    ∧ callTool disabledState "create_case" []
      = Except.error (CallError.capabilityDisabled "create_case" "limited") :=
  ⟨(C1_invoke_gating exampleState "nope" [] (by decide)).1 rfl,
   (C1_invoke_gating disabledState "create_case" [] (by decide)).2.1
     dummyToolDef rfl (by decide)⟩

/-- C4: when the active package is `"none"`, `enumerate` never lists the
introspection operation; under any other active package it is the first
entry.  The hypothesis is the spec's invariant that the reserved
introspection name does not collide with a registry name. -/
theorem C4_introspection_listing (st : ServerState)
    (hres : ∀ d ∈ st.toolDefinitions, d.1 ≠ "list_tool_packages") :
    (st.currentPackageName = "none" →
      ∀ t ∈ listTools st, t.1 ≠ "list_tool_packages")
    ∧ (st.currentPackageName ≠ "none" →
      (listTools st).head? = some introspectionTool) := by
  constructor
  · intro hnone t ht
    rw [listTools_eq] at ht
    simp only [hnone, ne_eq, not_true_eq_false, if_false, List.nil_append] at ht
    obtain ⟨nd, hnd, hsel⟩ := List.mem_filterMap.mp ht
    by_cases hmem : nd.1 ∈ st.enabledToolNames
    · simp only [hmem, if_true, Option.map_eq_some'] at hsel
      obtain ⟨sc, _, rfl⟩ := hsel
      exact hres nd hnd
    · simp [hmem] at hsel
  · intro hnot
    rw [listTools_eq]
    simp [hnot]

/-- C4 witness: under the package `"full"` the introspection tool is the
first listed entry. -/
theorem C4_introspection_listing_witness :
    (listTools exampleState).head? = some introspectionTool :=
  (C4_introspection_listing exampleState (by decide)).2 (by decide)

/-- C5: `enumerate` returns exactly the (optional) introspection entry
followed by one `(name, description, schema)` entry per registry tool whose
name is enabled, in registry order, skipping exactly those enabled tools
whose schema generation raises (`schema = none`); being a total function of
the state, it never raises. -/
theorem C5_enumeration_shape (st : ServerState) :
    listTools st
      = (if st.currentPackageName ≠ "none" then [introspectionTool] else [])
        ++ st.toolDefinitions.filterMap
          (fun nd =>
            if nd.1 ∈ st.enabledToolNames then
              nd.2.schema.map (fun schema => (nd.1, nd.2.description, schema))
            else none) :=
  listTools_eq st

/-- C6: invoking the reserved name `"list_tool_packages"` fails with
`CapabilityDisabled` when the active package is `"none"`; otherwise it
returns, through the Output Normalizer (for a dict the inlined
`json.dumps(·, indent=2)` equals `serialize_tool_output`), the serialized
mapping whose keys are exactly `current_package` (the active package),
`available_packages` (the keys of the loaded definitions), and the
guidance `message`. -/
theorem C6_introspection_invoke (st : ServerState) (arguments : List (String × Json)) :
    (st.currentPackageName = "none" →
      callTool st "list_tool_packages" arguments
        = Except.error (CallError.capabilityDisabled "list_tool_packages" "none"))
    ∧ (st.currentPackageName ≠ "none" →
      callTool st "list_tool_packages" arguments
          = Except.ok (serialize_tool_output
              (PyValue.dict (listToolPackagesImpl st)) "list_tool_packages")
        ∧ (listToolPackagesImpl st).map Prod.fst
            = ["current_package", "available_packages", "message"]
        ∧ (listToolPackagesImpl st).lookup "current_package"
            = some (Json.str st.currentPackageName)
        ∧ (listToolPackagesImpl st).lookup "available_packages"
            = some (Json.arr ((st.packageDefinitions.map Prod.fst).map Json.str))) := by
  constructor
  · intro h
    simp [callTool, h]
  · intro h
    refine ⟨?_, ?_, ?_, ?_⟩
    · simp [callTool, h, serialize_tool_output]
    · simp [listToolPackagesImpl]
    · rfl
    · rfl

/-- C6 witness: under package `"full"` the introspection call returns the
normalized mapping with the three keys. -/
theorem C6_introspection_invoke_witness :
    callTool exampleState "list_tool_packages" []
        = Except.ok (serialize_tool_output
            (PyValue.dict (listToolPackagesImpl exampleState)) "list_tool_packages")
      ∧ (listToolPackagesImpl exampleState).map Prod.fst
          = ["current_package", "available_packages", "message"]
      ∧ (listToolPackagesImpl exampleState).lookup "current_package"
          = some (Json.str exampleState.currentPackageName)
      ∧ (listToolPackagesImpl exampleState).lookup "available_packages"
          = some (Json.arr ((exampleState.packageDefinitions.map Prod.fst).map Json.str)) :=
  (C6_introspection_invoke exampleState []).2 (by decide)

/-- C7: the Output Normalizer re-renders any string that parses as JSON
with two-space indentation (`dumps`), returns verbatim any string that does
not parse, and is round-trip stable on structured mappings: normalizing a
mapping and re-normalizing the re-parse of its canonical text yield the
same text, and the re-parse yields the same structured content. -/
theorem C7_normalizer_roundtrip :
    (∀ (s toolName : String) (j : Json), loads s = some j →
      serialize_tool_output (PyValue.str s) toolName = dumps j)
    ∧ (∀ (s toolName : String), loads s = none →
      serialize_tool_output (PyValue.str s) toolName = s)
    ∧ (∀ (m : List (String × Json)) (toolName : String),
      loads (serialize_tool_output (PyValue.dict m) toolName) = some (Json.obj m)
      ∧ serialize_tool_output
          (PyValue.str (serialize_tool_output (PyValue.dict m) toolName)) toolName
        = serialize_tool_output (PyValue.dict m) toolName) := by
  refine ⟨?_, ?_, ?_⟩
  · intro s t j h
    simp [serialize_tool_output, h]
  · intro s t h
    simp [serialize_tool_output, h]
  · intro m t
    have hld : loads (dumps (Json.obj m)) = some (Json.obj m) := loads_dumps (Json.obj m)
    constructor
    · simpa [serialize_tool_output] using hld
    · simp [serialize_tool_output, hld]

/-- C7 witness: a JSON-parsable string is re-rendered; a non-JSON string is
returned verbatim. -/
theorem C7_normalizer_roundtrip_witness :
    serialize_tool_output (PyValue.str "[1]") "t" = dumps (Json.arr [Json.num 1])
    ∧ serialize_tool_output (PyValue.str "zap") "t" = "zap" :=
  ⟨C7_normalizer_roundtrip.1 "[1]" "t" (Json.arr [Json.num 1]) rfl,
   C7_normalizer_roundtrip.2.1 "zap" "t" rfl⟩

/-- C9: when the bound implementation raises, `invoke` re-signals the
failure as `ExecutionFailed` (a `RuntimeError` in the source) carrying the
operation name and the cause, and as no other error kind. -/
theorem C9_execution_failure (st : ServerState) (name : String)
    (arguments : List (String × Json)) (d : ToolDef) (params : Json) (msg : String)
    (hname : name ≠ "list_tool_packages")
    (hlk : st.toolDefinitions.lookup name = some d)
    (hen : name ∈ st.enabledToolNames)
    (hval : d.validate arguments = Except.ok params)
    (hrun : d.run params = Except.error msg) :
    callTool st name arguments = Except.error (CallError.executionFailed name msg) := by
  simp [callTool, hname, hlk, hen, hval, hrun]

/-- C9 witness: a tool whose implementation raises `"boom"` surfaces as
`ExecutionFailed` with the tool name and the cause. -/
theorem C9_execution_failure_witness :
    callTool failingState "t" []
      = Except.error (CallError.executionFailed "t" "boom") :=
  C9_execution_failure failingState "t" [] failingToolDef Json.null "boom"
    (by decide) rfl (by decide) rfl rfl

/-- C10: a `requests.RequestException` at the cited request of each case
operation is caught: the operation returns an ordinary failure-shaped
result with `success = false` and a non-empty message naming the failure
(so the dispatch caller sees a normal result, not `ExecutionFailed`).  For
`update_case` and `get_case` the cited request is the final one, reached
here through the sys_id branch. -/
theorem C10_request_failures :
    (∀ (p : CreateCaseParams) (e : String),
      (create_case p (Except.error e)).success = false
      ∧ (create_case p (Except.error e)).message = "Failed to create case: " ++ e
      ∧ (create_case p (Except.error e)).message ≠ "")
    ∧ (∀ (p : UpdateCaseParams) (lk : Except String Json) (e : String),
      isSysId p.case_id = true →
      (update_case p lk (Except.error e)).success = false
      ∧ (update_case p lk (Except.error e)).message = "Failed to update case: " ++ e
      ∧ (update_case p lk (Except.error e)).message ≠ "")
    ∧ (∀ (p : ListCasesParams) (e : String),
      jsonGet (list_cases p (Except.error e)) "success" = some (Json.bool false)
      ∧ jsonGet (list_cases p (Except.error e)) "message"
          = some (Json.str ("Failed to list cases: " ++ e))
      ∧ ("Failed to list cases: " ++ e) ≠ "")
    ∧ (∀ (p : GetCaseParams) (lk : Except String Json) (e : String),
      isSysId p.case_id = true →
      jsonGet (get_case p lk (Except.error e)) "success" = some (Json.bool false)
      ∧ jsonGet (get_case p lk (Except.error e)) "message"
          = some (Json.str ("Failed to get case: " ++ e))
      ∧ ("Failed to get case: " ++ e) ≠ "") := by
  refine ⟨?_, ?_, ?_, ?_⟩
  · intro p e
    refine ⟨rfl, rfl, string_append_ne_empty (by decide) e⟩
  · intro p lk e h
    simp only [update_case, h, if_true]
    refine ⟨by trivial, by trivial, string_append_ne_empty (by decide) e⟩
  · intro p e
    refine ⟨rfl, rfl, string_append_ne_empty (by decide) e⟩
  · intro p lk e h
    simp only [get_case, h, if_true]
    refine ⟨by trivial, by trivial, string_append_ne_empty (by decide) e⟩

/-- C10 witness: concrete failures at each operation. -/
theorem C10_request_failures_witness :
    (create_case { short_description := "d" } (Except.error "boom")).success = false
    ∧ (update_case { case_id := "0123456789abcdef0123456789abcdef" }
        (Except.ok Json.null) (Except.error "boom")).message
      = "Failed to update case: " ++ "boom"
    ∧ jsonGet (list_cases {} (Except.error "boom")) "success" = some (Json.bool false)
    ∧ jsonGet (get_case { case_id := "0123456789abcdef0123456789abcdef" }
        (Except.ok Json.null) (Except.error "boom")) "message"
      = some (Json.str ("Failed to get case: " ++ "boom")) :=
  ⟨(C10_request_failures.1 { short_description := "d" } "boom").1,
   (C10_request_failures.2.1 { case_id := "0123456789abcdef0123456789abcdef" }
     (Except.ok Json.null) "boom" (by decide)).2.1,
   (C10_request_failures.2.2.1 {} "boom").1,
   (C10_request_failures.2.2.2 { case_id := "0123456789abcdef0123456789abcdef" }
     (Except.ok Json.null) "boom" (by decide)).2.1⟩

/-- C2 counterexample: when the loaded definitions bind `"none"` to a
non-empty list, requesting `"none"` resolves to the `"none"` package with
that non-empty enabled set — the claim's "always empty regardless of the
loaded definitions" fails, since `_determine_enabled_tools` reads
`package_definitions.get(current_package_name, [])`. -/
theorem C2_none_package_counterexample :
    determineEnabledTools (some "none") [("none", ["create_case"])]
      = ("none", ["create_case"])
    ∧ (determineEnabledTools (some "none") [("none", ["create_case"])]).2 ≠ [] := by
  decide

/-- The resolved package name of `_determine_enabled_tools`, spelled out
(definitional). -/
theorem determineEnabledTools_fst (envPackage : Option String)
    (defs : List (String × List String)) :
    (determineEnabledTools envPackage defs).1
      = (if pyStrip (envPackage.getD "full") = "" then "full"
         else if (defs.map Prod.fst).contains (pyStrip (envPackage.getD "full"))
         then pyStrip (envPackage.getD "full") else "none") := rfl

/-- The resolved enabled set of `_determine_enabled_tools`: the
definitions' entry for the resolved package name, defaulting to the empty
list (definitional). -/
theorem determineEnabledTools_snd (envPackage : Option String)
    (defs : List (String × List String)) :
    (determineEnabledTools envPackage defs).2
      = (if defs.isEmpty then []
         else (defs.lookup ((determineEnabledTools envPackage defs).1)).getD []) := rfl

/-- C2 amended: when the active package resolves to `"none"`, the enabled
set is `definitions.get("none", [])`: empty whenever `"none"` is not bound
by the loaded definitions (in particular whenever the definitions are
empty), and the bound list otherwise. -/
theorem C2_none_package_enabled (envPackage : Option String)
    (defs : List (String × List String))
    (hnone : (determineEnabledTools envPackage defs).1 = "none") :
    (determineEnabledTools envPackage defs).2
      = (if defs.isEmpty then [] else (defs.lookup "none").getD [])
    ∧ (defs.lookup "none" = none → (determineEnabledTools envPackage defs).2 = []) := by
  have hmain : (determineEnabledTools envPackage defs).2
      = (if defs.isEmpty then [] else (defs.lookup "none").getD []) := by
    rw [determineEnabledTools_snd, hnone]
  refine ⟨hmain, fun hlk => ?_⟩
  rw [hmain]
  by_cases he : defs.isEmpty
  · simp [he]
  · simp [he, hlk]

/-- C2 witness: an unrecognized request degrades to `"none"` with an empty
enabled set when the definitions do not bind `"none"`. -/
theorem C2_none_package_enabled_witness :
    (determineEnabledTools (some "bogus") [("a", ["x"])]).2 = [] :=
  (C2_none_package_enabled (some "bogus") [("a", ["x"])] (by decide)).2 (by decide)

/-- C3 counterexample: with an empty (after stripping) requested
identifier and definitions that do not bind `"full"`, the active package
name stays `"full"` (with an empty enabled set) — it does not become
`"none"` as the claim states: the empty-string branch of
`_determine_enabled_tools` sets the name without consulting the
definitions. -/
theorem C3_empty_request_counterexample :
    determineEnabledTools (some "") [("a", ["x"])] = ("full", [])
    ∧ determineEnabledTools (some "") [("a", ["x"])] ≠ ("none", []) := by
  decide

/-- C3 amended: an unset identifier is treated as `"full"` and then
resolved against the definitions (`"full"` if bound, else degrade to
`"none"` with enabled set `definitions.get("none", [])`); an empty (after
stripping) identifier instead fixes the active package name to `"full"`
unconditionally, with enabled set `definitions.get("full", [])`. -/
theorem C3_default_package_resolution (defs : List (String × List String)) :
    ((determineEnabledTools (some "") defs).1 = "full"
      ∧ (determineEnabledTools (some "") defs).2
          = (if defs.isEmpty then [] else (defs.lookup "full").getD []))
    ∧ ((defs.map Prod.fst).contains "full" = true →
        determineEnabledTools none defs = ("full", (defs.lookup "full").getD []))
    ∧ ((defs.map Prod.fst).contains "full" = false →
        (determineEnabledTools none defs).1 = "none"
        ∧ (determineEnabledTools none defs).2
            = (if defs.isEmpty then [] else (defs.lookup "none").getD [])) := by
  have hempty : pyStrip "" = "" := rfl
  have hfull : pyStrip "full" = "full" := rfl
  have hne : ("full" : String) ≠ "" := by decide
  have hfst0 : (determineEnabledTools (some "") defs).1 = "full" := by
    rw [determineEnabledTools_fst]
    simp [hempty]
  have hfst1 : (determineEnabledTools none defs).1
      = (if (defs.map Prod.fst).contains "full" then "full" else "none") := by
    rw [determineEnabledTools_fst]
    show (if pyStrip "full" = "" then "full"
      else if (defs.map Prod.fst).contains (pyStrip "full") then pyStrip "full" else "none") = _
    rw [hfull, if_neg hne]
  refine ⟨⟨hfst0, ?_⟩, ?_, ?_⟩
  · rw [determineEnabledTools_snd, hfst0]
  · intro h
    have hnonempty : defs.isEmpty = false := by
      cases defs with
      | nil => simp at h
      | cons d ds => rfl
    have hfst : (determineEnabledTools none defs).1 = "full" := by
      rw [hfst1, h]
      rfl
    have hsnd : (determineEnabledTools none defs).2 = (defs.lookup "full").getD [] := by
      rw [determineEnabledTools_snd, hfst, hnonempty]
      rfl
    calc determineEnabledTools none defs
        = ((determineEnabledTools none defs).1, (determineEnabledTools none defs).2) := rfl
      _ = ("full", (defs.lookup "full").getD []) := by rw [hfst, hsnd]
  · intro h
    have hfst : (determineEnabledTools none defs).1 = "none" := by
      rw [hfst1, h]
      rfl
    refine ⟨hfst, ?_⟩
    rw [determineEnabledTools_snd, hfst]

/-- C3 witness: unset identifier with `"full"` bound loads `"full"`; unset
identifier without `"full"` bound degrades to `"none"`. -/
theorem C3_default_package_resolution_witness :
    determineEnabledTools none [("full", ["x"])] = ("full", ["x"])
    ∧ (determineEnabledTools none [("a", ["x"])]).1 = "none" := by
  constructor
  · have h := (C3_default_package_resolution [("full", ["x"])]).2.1 (by decide)
    simpa using h
  · exact ((C3_default_package_resolution [("a", ["x"])]).2.2 (by decide)).1

/-- Shape of the rendered error envelope: opening scaffold, the escaped
tool name, middle scaffold, the escaped details, closing scaffold. -/
theorem errEnvelope_decomp (toolName msg : String) :
    (errEnvelope toolName msg).data
      = ('{' :: '\n' :: (indentChars 2
          ++ ('"' :: (escChars "error".data
            ++ ('"' :: ':' :: ' ' :: ('"' :: escChars "Serialization failed for tool ".data))))))
        ++ (escChars toolName.data
          ++ ('"' :: ',' :: ('\n' :: (indentChars 2
              ++ ('"' :: (escChars "details".data
                ++ ('"' :: ':' :: ' ' :: ('"' :: (escChars msg.data
                  ++ ('"' :: '\n' :: (indentChars 0 ++ ['}']))))))))))) := by
  show printChars 0 (Json.obj
      [("error", Json.str ("Serialization failed for tool " ++ toolName)),
       ("details", Json.str msg)]) = _
  simp only [printChars, printMembers]
  rw [string_append_data, escChars_append]
  simp [List.append_assoc]

/-- C8 counterexample: for the operation name `a"b` (which JSON escaping
rewrites) the rendered envelope does not contain the literal name as a
substring; and for an exception whose `str(e)` is empty the details field
of the envelope is the empty string.  The claim's unconditional "contains
the literal operation name and a non-empty details field" therefore fails. -/
theorem C8_envelope_counterexample :
    hasSegment "a\"b".data
        (serialize_tool_output (PyValue.model2Raises "boom") "a\"b").data = false
    ∧ loads (serialize_tool_output (PyValue.otherRaises "") "t")
        = some (Json.obj
          [("error", Json.str "Serialization failed for tool t"),
           ("details", Json.str "")]) := by
  constructor
  · rw [show serialize_tool_output (PyValue.model2Raises "boom") "a\"b"
        = errEnvelope "a\"b" "boom" from rfl]
    rw [errEnvelope_decomp]
    decide
  · rw [show serialize_tool_output (PyValue.otherRaises "") "t"
        = dumps (Json.obj
          [("error", Json.str "Serialization failed for tool t"),
           ("details", Json.str "")]) from rfl]
    exact loads_dumps _

/-- C8 amended: the Output Normalizer is a total function (never
propagates an exception); whenever every strategy raises it returns the
rendered envelope `{"error": "Serialization failed for tool <name>",
"details": str(e)}`; the envelope parses back to exactly that mapping, its
details field is exactly `str(e)` (hence non-empty whenever `str(e)` is),
and it contains the operation name as a literal substring whenever the
name has no characters rewritten by JSON string escaping. -/
theorem C8_envelope_on_failure (v : PyValue) (toolName msg : String)
    (h : raisesAllStrategies v = some msg) :
    serialize_tool_output v toolName = errEnvelope toolName msg
    ∧ loads (serialize_tool_output v toolName)
        = some (Json.obj
          [("error", Json.str ("Serialization failed for tool " ++ toolName)),
           ("details", Json.str msg)])
    ∧ (loads (serialize_tool_output v toolName)).bind (fun j => jsonGet j "details")
        = some (Json.str msg)
    ∧ ((∀ c ∈ toolName.data, escChar c = [c]) →
        hasSegment toolName.data (serialize_tool_output v toolName).data = true) := by
  have heq : serialize_tool_output v toolName = errEnvelope toolName msg := by
    cases v <;> simp [raisesAllStrategies] at h <;> subst h <;> rfl
  have hparse : loads (serialize_tool_output v toolName)
      = some (Json.obj
        [("error", Json.str ("Serialization failed for tool " ++ toolName)),
         ("details", Json.str msg)]) := by
    rw [heq]
    exact loads_dumps _
  refine ⟨heq, hparse, ?_, ?_⟩
  · rw [hparse]
    rfl
  · intro hesc
    rw [heq, errEnvelope_decomp, escChars_id hesc]
    exact hasSegment_of_append _ _ _

/-- C8 witness: a name without escapes appears literally in the envelope,
which equals the rendered error mapping. -/
theorem C8_envelope_on_failure_witness :
    serialize_tool_output (PyValue.model2Raises "boom") "create_case"
      = errEnvelope "create_case" "boom"
    ∧ hasSegment "create_case".data
        (serialize_tool_output (PyValue.model2Raises "boom") "create_case").data = true := by
  have h := C8_envelope_on_failure (PyValue.model2Raises "boom") "create_case" "boom" rfl
  exact ⟨h.1, h.2.2.2 (by decide)⟩
